import Mathlib

/-!
Verification of the graph/node layer of `src/ffmpeg/nodes.py`.

The Python module builds a typed DAG of media-processing nodes.  This file is a
shallow embedding of that module: every Python function or method that the
claims touch becomes an executable Lean definition that mirrors the source line
by line.  Python object references to upstream nodes are modelled by a
lightweight `NodeRef` record carrying exactly the attributes the source reads
from an upstream node (its kind, its outgoing stream class and its identity).
Python exceptions become an explicit error type: the source raises `TypeError`
for kind violations (the spec name is TypeMismatch), `ValueError` for arity
violations (ArityError) and for malformed selector requests (InvalidUsage), and
falls off the end of `get_stream_map` with an unbound local variable for
unrecognised stream specifications (modelled as `nameError`).
-/

deriving instance DecidableEq for Except

namespace FfmpegNodes

/-- Kinds of nodes: one per concrete `Node` subclass in the source. -/
inductive NKind where
  | input
  | filter
  | source
  | output
  | globalK
  | mergeOutputs
deriving DecidableEq

/-- Kinds of streams: one per concrete `Stream` subclass in the source
(`FilterableStream` and `OutputStream`). -/
inductive SKind where
  | filterable
  | output
deriving DecidableEq

/-- Edge labels: Python uses `None`, integers produced by `enumerate`, or
caller-chosen names as keys of the incoming edge map. -/
inductive Label where
  | unlabeled
  | num (n : Nat)
  | str (s : String)
deriving DecidableEq

/-- Reference to an upstream node as stored inside a stream or an edge.  The
`id` field stands for the identity of the Python object; `kind` and
`outStreamType` are the attributes of the upstream node that the embedded code
reads (`isinstance` checks and `__outgoing_stream_type`). -/
structure NodeRef where
  id : Nat
  kind : NKind
  outStreamType : SKind
deriving DecidableEq

/-- Errors raised by the source, under the names the spec gives them.
`typeMismatch` is `TypeError`, `arityError` is the `ValueError` of
`__check_input_len`, `invalidUsage` is the `ValueError` of
`Stream.__getitem__`, and `nameError` is the unbound-local failure of
`get_stream_map` on an unrecognised specification shape. -/
inductive Err where
  | typeMismatch
  | arityError
  | invalidUsage
  | nameError
deriving DecidableEq

/-- A stream object: its concrete class (`skind`), the upstream node, the
upstream label and the optional component selector
(`Stream.__init__` fields `node`, `label`, `selector`). -/
structure Stream where
  skind : SKind
  node : NodeRef
  label : Label
  selector : Option String
deriving DecidableEq

/-- The `node_types` set passed to `Stream.__init__` by each subclass:
`FilterableStream` allows `{InputNode, FilterNode, SourceNode}` and
`OutputStream` allows `{OutputNode, GlobalNode, MergeOutputsNode}`. -/
def allowedNodeKinds : SKind → List NKind
  | .filterable => [.input, .filter, .source]
  | .output => [.output, .globalK, .mergeOutputs]

/-- Constructor of `Stream`: `_is_of_types` validation of the upstream node,
raising `TypeError` on violation. -/
def mkStream (skind : SKind) (node : NodeRef) (label : Label)
    (selector : Option String) : Except Err Stream :=
  if node.kind ∈ allowedNodeKinds skind then
    .ok ⟨skind, node, label, selector⟩
  else
    .error .typeMismatch

/-- Method `Node.stream` seen from an upstream reference: builds an outgoing
stream of the declared outgoing class. -/
def NodeRef.stream (node : NodeRef) (label : Label) (select : Option String) :
    Except Err Stream :=
  mkStream node.outStreamType node label select

/-- Argument shapes of the Python `__getitem__` protocol: a slice
`[start:stop]` or a direct (non-slice) index. -/
inductive ItemArg where
  | sliceArg (start : Option String) (stop : Option String)
  | plainArg (s : String)
deriving DecidableEq

/-- Method `Stream.__getitem__` (source lines 49 to 58): only a bare slice
`stream[:selector]` is accepted; a non-slice index or a slice with a starting
bound raises `ValueError`.  On success it returns
`self.node.stream(select=item.stop)`, whose label is the default `None`. -/
def Stream.getItem (self : Stream) (item : ItemArg) : Except Err Stream :=
  match item with
  | .plainArg _ => .error .invalidUsage
  | .sliceArg (some _) _ => .error .invalidUsage
  | .sliceArg none stop => NodeRef.stream self.node Label.unlabeled stop

/-- Shapes a caller may pass as a stream specification.  `other` stands for
every value that is neither absent, a stream, a list or tuple, nor a dict. -/
inductive StreamSpec where
  | noSpec
  | single (s : Stream)
  | listSpec (ss : List Stream)
  | dictSpec (m : List (Label × Stream))
deriving DecidableEq

/-- Full specification argument: one of the recognised shapes or anything
else (a bare integer, a string, ...). -/
inductive SpecArg where
  | known (spec : StreamSpec)
  | other
deriving DecidableEq

/-- Keys produced by `dict(enumerate(xs))` starting at index `i`. -/
def enumKeyedFrom (i : Nat) : List α → List (Label × α)
  | [] => []
  | x :: rest => (Label.num i, x) :: enumKeyedFrom (i + 1) rest

/-- Python `dict(enumerate(xs))` and `OrderedDict(enumerate(xs))`: an ordered
map keyed by position. -/
def enumKeyed (l : List α) : List (Label × α) :=
  enumKeyedFrom 0 l

/-- Function `get_stream_map` (source lines 61 to 70).  The four recognised
shapes produce a map; any other value leaves the local variable unassigned and
the final `return stream_map` raises an unbound-local error, modelled as
`nameError`. -/
def get_stream_map : SpecArg → Except Err (List (Label × Stream))
  | .known .noSpec => .ok []
  | .known (.single s) => .ok [(Label.unlabeled, s)]
  | .known (.listSpec ss) => .ok (enumKeyed ss)
  | .known (.dictSpec m) => .ok m
  | .other => .error .nameError

/-- An incoming edge value: the `(upstream.node, upstream.label,
upstream.selector)` triple stored by `Node.__get_incoming_edge_map`. -/
abbrev Edge := NodeRef × Label × Option String

/-- Ordered-dict membership test on an association list. -/
def dictMem [BEq κ] (d : List (κ × α)) (k : κ) : Bool :=
  d.any (fun p => p.1 == k)

/-- Python dict assignment `d[k] = v`: overwrite in place if the key exists,
else append at the end. -/
def dictSet [BEq κ] (d : List (κ × α)) (k : κ) (v : α) : List (κ × α) :=
  if dictMem d k then d.map (fun p => if p.1 == k then (k, v) else p)
  else d ++ [(k, v)]

/-- Python `d.update(new)`: assign every pair of `new` into `d` in order. -/
def dictUpdate [BEq κ] (d new : List (κ × α)) : List (κ × α) :=
  new.foldl (fun acc p => dictSet acc p.1 p.2) d

/-- Python `d.pop(k)` guarded by `if k in d`: remove the key if present. -/
def dictPop [BEq κ] (d : List (κ × α)) (k : κ) : List (κ × α) :=
  d.filter (fun p => !(p.1 == k))

/-- Python `d[k]` for a key known to be present, with a default to stay
total. -/
def dictGet [BEq κ] (d : List (κ × α)) (k : κ) (dflt : α) : α :=
  match d.find? (fun p => p.1 == k) with
  | some p => p.2
  | none => dflt

/-- A node object.  Beyond the constructor arguments stored by
`Node.__init__`, the incoming edge map is the ordered dict built by
`Node.__get_incoming_edge_map`. -/
structure Node where
  kind : NKind
  name : String
  args : List String
  kwargs : List (String × String)
  incomingEdgeMap : List (Label × Edge)
  incomingStreamTypes : List SKind
  minInputs : Option Nat
  maxInputs : Option Nat
  outStreamType : SKind
deriving DecidableEq

/-- Classmethod `Node.__check_input_len` (source lines 90 to 95): raise
`ValueError` if the map is shorter than the minimum, else if a maximum is set
and the map is longer than it. -/
def checkInputLen (n : Nat) : Option Nat → Option Nat → Except Err Unit
  | some mn, mx =>
    if n < mn then .error .arityError
    else
      match mx with
      | some mxv => if mxv < n then .error .arityError else .ok ()
      | none => .ok ()
  | none, some mxv => if mxv < n then .error .arityError else .ok ()
  | none, none => .ok ()

/-- Classmethod `Node.__check_input_types` (source lines 97 to 102): raise
`TypeError` at the first stream whose class is not in the allowed set. -/
def checkInputTypes : List (Label × Stream) → List SKind → Except Err Unit
  | [], _ => .ok ()
  | p :: rest, allowed =>
    if p.2.skind ∈ allowed then checkInputTypes rest allowed
    else .error .typeMismatch

/-- Classmethod `Node.__get_incoming_edge_map` (source lines 104 to 109):
project every stream of the map to its upstream triple, keeping the keys. -/
def getIncomingEdgeMap (sm : List (Label × Stream)) : List (Label × Edge) :=
  sm.map (fun p => (p.1, (p.2.node, p.2.label, p.2.selector)))

/-- Constructor `Node.__init__` (source lines 111 to 122): normalise the
specification, check arity, check kinds, then store the projected edge map and
the constraints. -/
def Node.init (kind : NKind) (spec : SpecArg) (name : String)
    (incomingStreamTypes : List SKind) (outStreamType : SKind)
    (minInputs maxInputs : Option Nat)
    (args : List String) (kwargs : List (String × String)) : Except Err Node :=
  match get_stream_map spec with
  | .error e => .error e
  | .ok sm =>
    match checkInputLen sm.length minInputs maxInputs with
    | .error e => .error e
    | .ok _ =>
      match checkInputTypes sm incomingStreamTypes with
      | .error e => .error e
      | .ok _ =>
        .ok ⟨kind, name, args, kwargs, getIncomingEdgeMap sm,
          incomingStreamTypes, minInputs, maxInputs, outStreamType⟩

/-- Method `Node._add_streams` (source lines 141 to 164), in state-passing
form: the pair holds the node state after the call together with the raised
error, if any.  The stored map is modified only after both checks pass; each
raise site returns the state current at that point, which is the unchanged
receiver. -/
def Node.addStreams (self : Node) (spec : SpecArg) : Node × Option Err :=
  let prevEdges := self.incomingEdgeMap.map Prod.snd
  match get_stream_map spec with
  | .error e => (self, some e)
  | .ok newStreamMap =>
    match checkInputTypes newStreamMap self.incomingStreamTypes with
    | .error e => (self, some e)
    | .ok _ =>
      let newEdges := (getIncomingEdgeMap newStreamMap).map Prod.snd
      let newEdgeMap := enumKeyed (prevEdges ++ newEdges)
      match checkInputLen newEdgeMap.length self.minInputs self.maxInputs with
      | .error e => (self, some e)
      | .ok _ =>
        let popped := dictPop self.incomingEdgeMap Label.unlabeled
        ({ self with incomingEdgeMap := dictUpdate popped newEdgeMap }, none)

/-- Constructor `FilterNode.__init__` (source lines 218 to 229). -/
def FilterNode.init (spec : SpecArg) (name : String) (maxInputs : Option Nat)
    (args : List String) (kwargs : List (String × String)) : Except Err Node :=
  Node.init .filter spec name [.filterable] .filterable (some 1) maxInputs
    args kwargs

/-- Constructor `OutputNode.__init__` (source lines 246 to 257). -/
def OutputNode.init (spec : SpecArg) (name : String)
    (args : List String) (kwargs : List (String × String)) : Except Err Node :=
  Node.init .output spec name [.filterable] .output (some 0) none args kwargs

/-- Constructor `InputNode.__init__` (source lines 172 to 185). -/
def InputNode.init (name : String) (args : List String)
    (kwargs : List (String × String)) : Except Err Node :=
  Node.init .input (.known .noSpec) name [] .filterable (some 0) (some 0)
    args kwargs

/-- Constructor `SourceNode.__init__` (source lines 232 to 243). -/
def SourceNode.init (name : String) (args : List String)
    (kwargs : List (String × String)) : Except Err Node :=
  Node.init .source (.known .noSpec) name [] .filterable (some 0) (some 0)
    args kwargs

/-- Constructor `GlobalNode.__init__` (source lines 282 to 293). -/
def GlobalNode.init (spec : SpecArg) (name : String) (args : List String)
    (kwargs : List (String × String)) : Except Err Node :=
  Node.init .globalK spec name [.output] .output (some 1) (some 1) args kwargs

/-- Constructor `MergeOutputsNode.__init__` (source lines 270 to 279). -/
def MergeOutputsNode.init (spec : SpecArg) (name : String) : Except Err Node :=
  Node.init .mergeOutputs spec name [.output] .output (some 1) none [] []

/-- First escape charset of `FilterableNode._get_filter`: the Python literal
`'\\\'=:'`, that is backslash, single quote, equals, colon. -/
def cs1 : List Char := ['\\', '\'', '=', ':']

/-- Second escape charset: the Python literal `'\\\'[],;'`, that is backslash,
single quote, square brackets, comma, semicolon. -/
def cs2 : List Char := ['\\', '\'', '[', ']', ',', ';']

/-- Modelled from the spec: `escape_chars` lives in `ffmpeg/_utils.py`, which
is not under src.  Spec section 6: for every character of the text that is a
member of the charset, insert a backslash immediately before it; no other
transformation. -/
def escapeList (cs : List Char) : List Char → List Char
  | [] => []
  | c :: rest =>
    if c ∈ cs then '\\' :: c :: escapeList cs rest
    else c :: escapeList cs rest

/-- String version of `escapeList`, the form used by the source. -/
def escape_chars (s : String) (cs : List Char) : String :=
  ⟨escapeList cs s.data⟩

/-- Python `':'.join(params)`. -/
def joinColon : List String → String
  | [] => ""
  | [s] => s
  | s :: rest => s ++ ":" ++ joinColon rest

/-- Lexicographic comparison of character lists by code point, the order
Python uses on strings. -/
def lexLe : List Char → List Char → Bool
  | [], _ => true
  | _ :: _, [] => false
  | a :: as, b :: bs =>
    if a < b then true else if b < a then false else lexLe as bs

/-- Lexicographic order on strings, as a proposition. -/
def strLe (a b : String) : Prop := lexLe a.data b.data = true

instance : DecidableRel strLe :=
  fun a b => instDecidableEqBool (lexLe a.data b.data) true

/-- Python `sorted` on a list of strings: a stable ascending sort. -/
def sortStrings (l : List String) : List String :=
  List.insertionSort strLe l

/-- Method `FilterableNode._get_filter` (source lines 194 to 215).  The
`outgoing_edges` argument is the number of outgoing edges in use; the source
only takes its length.  For the fan-out names the positional list is replaced
by that number (`escape_chars` converts it to a string).  Positional
parameters are escaped with `cs1` at line 200 and again at line 207; keyword
keys and values once at lines 203 and 204; keyword parameters are emitted
sorted by key; the assembled text is escaped with `cs2` at line 215. -/
def Node.getFilter (self : Node) (outgoingEdges : Nat) : String :=
  let args := if self.name = "split" ∨ self.name = "asplit" then
      [toString outgoingEdges]
    else self.args
  let outArgs := args.map (fun x => escape_chars x cs1)
  let outKwargs := self.kwargs.foldl
    (fun d p => dictSet d (escape_chars p.1 cs1) (escape_chars p.2 cs1)) []
  let argParams := outArgs.map (fun v => escape_chars v cs1)
  let kwargParams := (sortStrings (outKwargs.map Prod.fst)).map
    (fun k => k ++ "=" ++ dictGet outKwargs k "")
  let params := argParams ++ kwargParams
  let paramsText := escape_chars self.name cs1
  let paramsText :=
    if params.isEmpty then paramsText
    else paramsText ++ "=" ++ joinColon params
  escape_chars paramsText cs2

/-- Modelled from the spec: `get_hash_int` lives in `ffmpeg/_utils.py`, which
is not under src.  Spec section 6: a deterministic combination of an ordered
sequence of hash values into one hash value. -/
def get_hash_int (hs : List Nat) : Nat :=
  hs.foldl (fun a h => a * 1000003 + h + 1) 5381

/-- Modelled from the spec: the structural hash of a node comes from the
external repr substrate (`ffmpeg/dag.py`, not under src), which gives each
node a stable content hash; a `NodeRef` carries that hash as its identity. -/
def nodeHash (n : NodeRef) : Nat := n.id

/-- Modelled from the spec: the hash of a label, as used by
`Stream.__hash__`; any deterministic function of the label. -/
def labelHash : Label → Nat
  | .unlabeled => 0
  | .num n => 2 * n + 1
  | .str s => 2 * (s.data.foldl (fun a c => a * 31 + c.toNat) 7) + 2

/-- Method `Stream.__hash__` (source lines 35 to 36): combine the node hash
and the label hash; the selector does not participate. -/
def Stream.hashS (s : Stream) : Nat :=
  get_hash_int [nodeHash s.node, labelHash s.label]

/-- Method `Stream.__eq__` (source lines 38 to 39): defined as equality of
hashes. -/
def Stream.eqPy (s t : Stream) : Bool :=
  s.hashS == t.hashS

/-- The keyword dict built by the loop at source lines 201 to 205: keys and
values escaped once with `cs1`, assigned into a fresh dict. -/
def outKwargsOf (n : Node) : List (String × String) :=
  n.kwargs.foldl
    (fun d p => dictSet d (escape_chars p.1 cs1) (escape_chars p.2 cs1)) []

/-- The positional parameter list as rendered by source lines 200 and 207:
the declaration-order arguments (or the fan-out count for split variants),
each escaped twice with `cs1`. -/
def argParamsOf (n : Node) (outgoingEdges : Nat) : List String :=
  (if n.name = "split" ∨ n.name = "asplit" then [toString outgoingEdges]
    else n.args).map
    (fun a => escape_chars (escape_chars a cs1) cs1)

/-- The keys of the keyword dict in the order `sorted` emits them. -/
def sortedKeysOf (n : Node) : List String :=
  sortStrings ((outKwargsOf n).map Prod.fst)

/-- The keyword parameter list as rendered by source line 208: `key=value`
pairs in ascending key order. -/
def kwargParamsOf (n : Node) : List String :=
  (sortedKeysOf n).map (fun k => k ++ "=" ++ dictGet (outKwargsOf n) k "")

/-- Rendering of the full descriptor as the amended claim describes it: the
escaped name alone when there are no parameters, else
`name=param1:...:key=value`, where positional parameters carry two rounds of
`cs1` escaping and keyword parameters one, and the assembled text one round of
`cs2` escaping. -/
def renderDescriptor (n : Node) (outgoingEdges : Nat) : String :=
  let ps := argParamsOf n outgoingEdges ++ kwargParamsOf n
  escape_chars
    (if ps.isEmpty then escape_chars n.name cs1
      else escape_chars n.name cs1 ++ "=" ++ joinColon ps) cs2

/-- Rendering as claim C3 reads the spec: every positional parameter escaped
exactly once with `cs1`, keyword keys and values once, then the assembled
descriptor escaped once with `cs2`. -/
def renderOnceEscaped (n : Node) (outgoingEdges : Nat) : String :=
  let args := if n.name = "split" ∨ n.name = "asplit" then
      [toString outgoingEdges]
    else n.args
  let argParams := args.map (fun a => escape_chars a cs1)
  let ps := argParams ++ kwargParamsOf n
  escape_chars
    (if ps.isEmpty then escape_chars n.name cs1
      else escape_chars n.name cs1 ++ "=" ++ joinColon ps) cs2

/-! Concrete fixtures used by counterexamples and witnesses. -/

/-- An input node reference. -/
def inRef : NodeRef := ⟨10, .input, .filterable⟩

/-- A second input node reference. -/
def inRef2 : NodeRef := ⟨20, .input, .filterable⟩

/-- A filter node reference. -/
def filtRef : NodeRef := ⟨11, .filter, .filterable⟩

/-- An output node reference. -/
def outRef : NodeRef := ⟨12, .output, .output⟩

/-- A processable stream from the first input node. -/
def sIn1 : Stream := ⟨.filterable, inRef, .unlabeled, none⟩

/-- A processable stream from the second input node. -/
def sIn2 : Stream := ⟨.filterable, inRef2, .unlabeled, none⟩

/-- A processable stream from the filter node, labeled 5. -/
def sFlt5 : Stream := ⟨.filterable, filtRef, .num 5, none⟩

/-- An output-kind stream, as produced by an output node. -/
def sOut1 : Stream := ⟨.output, outRef, .unlabeled, none⟩

/-- The edge triple behind `sIn1`. -/
def edgeIn1 : Edge := (inRef, .unlabeled, none)

/-- The edge triple behind `sIn2`. -/
def edgeIn2 : Edge := (inRef2, .unlabeled, none)

/-- An output node holding one incoming edge under the caller-chosen name
`a`, as built by `OutputNode.__init__` from a dict specification. -/
def c1Node : Node :=
  ⟨.output, "out", [], [], [(.str "a", edgeIn1)], [.filterable], some 0, none,
    .output⟩

/-- A filter node holding one unlabeled incoming edge, as built by
`FilterNode.__init__` from a single stream. -/
def c2Node : Node :=
  ⟨.filter, "vflip", [], [], [(.unlabeled, edgeIn1)], [.filterable], some 1,
    some 1, .filterable⟩

/-- A filter node with one positional parameter containing a colon. -/
def c3Node : Node :=
  ⟨.filter, "f", ["a:b"], [], [(.unlabeled, edgeIn1)], [.filterable], some 1,
    some 1, .filterable⟩

/-- The node produced by a valid one-stream filter construction. -/
def c5Node : Node :=
  ⟨.filter, "vflip", [], [], [(.unlabeled, edgeIn1)], [.filterable], some 1,
    some 1, .filterable⟩

/-- A split node with an explicit count parameter of 3. -/
def splitNode3 : Node :=
  ⟨.filter, "split", ["3"], [], [(.unlabeled, edgeIn1)], [.filterable], some 1,
    none, .filterable⟩

/-- A scale filter with keyword parameters inserted width first. -/
def kwNodeWH : Node :=
  ⟨.filter, "scale", [], [("width", "100"), ("height", "200")],
    [(.unlabeled, edgeIn1)], [.filterable], some 1, some 1, .filterable⟩

/-- The same scale filter with keyword parameters inserted height first. -/
def kwNodeHW : Node :=
  ⟨.filter, "scale", [], [("height", "200"), ("width", "100")],
    [(.unlabeled, edgeIn1)], [.filterable], some 1, some 1, .filterable⟩

/-- A two-input filter node holding one unlabeled incoming edge, with room
for a second one. -/
def w1Node : Node :=
  ⟨.filter, "hstack", [], [], [(.unlabeled, edgeIn1)], [.filterable], some 1,
    some 2, .filterable⟩

/-! Helper lemmas about the order on strings and the sorting model. -/

theorem lexLe_total (as bs : List Char) : lexLe as bs = true ∨ lexLe bs as = true := by
  induction as generalizing bs with
  | nil => left; rfl
  | cons a as ih =>
    cases bs with
    | nil => right; rfl
    | cons b bs =>
      by_cases hab : a < b
      · left; simp [lexLe, hab]
      · by_cases hba : b < a
        · right; simp [lexLe, hba, hab, asymm hba]
        · rcases ih bs with h | h
          · left; simp [lexLe, hab, hba, h]
          · right; simp [lexLe, hab, hba, h]

theorem lexLe_antisymm (as bs : List Char) (h1 : lexLe as bs = true)
    (h2 : lexLe bs as = true) : as = bs := by
  induction as generalizing bs with
  | nil =>
    cases bs with
    | nil => rfl
    | cons b bs => simp [lexLe] at h2
  | cons a as ih =>
    cases bs with
    | nil => simp [lexLe] at h1
    | cons b bs =>
      by_cases hab : a < b
      · simp [lexLe, hab, asymm hab] at h2
      · by_cases hba : b < a
        · simp [lexLe, hba, hab] at h1
        · have : a = b := le_antisymm (not_lt.mp hba) (not_lt.mp hab)
          subst this
          simp [lexLe, hab] at h1 h2
          rw [ih bs h1 h2]

theorem lexLe_trans (as bs cs : List Char) (h1 : lexLe as bs = true)
    (h2 : lexLe bs cs = true) : lexLe as cs = true := by
  induction as generalizing bs cs with
  | nil => rfl
  | cons a as ih =>
    cases bs with
    | nil => simp [lexLe] at h1
    | cons b bs =>
      cases cs with
      | nil => simp [lexLe] at h2
      | cons c cs =>
        simp only [lexLe] at h1 h2 ⊢
        by_cases hab : a < b <;> by_cases hbc : b < c <;>
          simp [hab, hbc] at h1 h2 ⊢
        · exact Or.inl (lt_trans hab hbc)
        · exact Or.inl (lt_of_lt_of_le hab h2.1)
        · exact Or.inl (lt_of_le_of_lt h1.1 hbc)
        · exact Or.inr ⟨le_trans h1.1 h2.1, ih bs cs h1.2 h2.2⟩

instance : IsTotal String strLe :=
  ⟨fun a b => lexLe_total a.data b.data⟩

instance : IsTrans String strLe :=
  ⟨fun a b c => lexLe_trans a.data b.data c.data⟩

instance : IsAntisymm String strLe :=
  ⟨fun a b h1 h2 => by
    cases a; cases b
    exact congrArg String.mk (lexLe_antisymm _ _ h1 h2)⟩

theorem sortStrings_sorted (l : List String) : List.Sorted strLe (sortStrings l) :=
  List.sorted_insertionSort strLe l

theorem sortStrings_perm (l : List String) : (sortStrings l).Perm l :=
  List.perm_insertionSort strLe l

theorem sortStrings_congr {l1 l2 : List String} (h : l1.Perm l2) :
    sortStrings l1 = sortStrings l2 :=
  List.eq_of_perm_of_sorted
    (((sortStrings_perm l1).trans h).trans (sortStrings_perm l2).symm)
    (sortStrings_sorted l1) (sortStrings_sorted l2)

/-! Helper lemmas about the ordered-dict model. -/

theorem dictMem_eq_false_iff [BEq κ] [LawfulBEq κ] (d : List (κ × α)) (k : κ) :
    dictMem d k = false ↔ ∀ p ∈ d, p.1 ≠ k := by
  simp [dictMem, List.any_eq_false]

theorem dictSet_not_mem [BEq κ] [LawfulBEq κ] {d : List (κ × α)} {k : κ} (v : α)
    (h : dictMem d k = false) : dictSet d k v = d ++ [(k, v)] := by
  simp [dictSet, h]

theorem key_unique [BEq κ] [LawfulBEq κ] {d : List (κ × α)}
    (hnd : (d.map Prod.fst).Nodup) {p q : κ × α} (hp : p ∈ d) (hq : q ∈ d)
    (hk : p.1 = q.1) : p = q := by
  induction d with
  | nil => cases hp
  | cons r rest ih =>
    simp only [List.map_cons, List.nodup_cons] at hnd
    rcases List.mem_cons.mp hp with hp1 | hp1 <;>
      rcases List.mem_cons.mp hq with hq1 | hq1
    · rw [hp1, hq1]
    · exact absurd (hk ▸ (List.mem_map.mpr ⟨q, hq1, rfl⟩) : p.1 ∈ rest.map Prod.fst)
        (hp1 ▸ hnd.1)
    · exact absurd (hk ▸ (List.mem_map.mpr ⟨p, hp1, rfl⟩ : p.1 ∈ rest.map Prod.fst))
        (hq1 ▸ hnd.1)
    · exact ih hnd.2 hp1 hq1

theorem dictSet_mem_self [BEq κ] [LawfulBEq κ] {d : List (κ × α)} {k : κ} {v : α}
    (hnd : (d.map Prod.fst).Nodup) (hm : (k, v) ∈ d) : dictSet d k v = d := by
  have hmem : dictMem d k = true := by
    simp only [dictMem, List.any_eq_true]
    exact ⟨(k, v), hm, by simp⟩
  simp only [dictSet, hmem, if_true]
  have hcong : d.map (fun p => if p.1 == k then (k, v) else p) = d.map id := by
    apply List.map_congr_left
    intro p hp
    by_cases hk : (p.1 == k) = true
    · have : p = (k, v) := key_unique hnd hp hm (by simpa using hk)
      simp [hk, this]
    · simp [hk]
  rw [hcong, List.map_id]

theorem dictUpdate_self [BEq κ] [LawfulBEq κ] {d : List (κ × α)}
    (hnd : (d.map Prod.fst).Nodup) (l : List (κ × α)) (hsub : ∀ p ∈ l, p ∈ d) :
    dictUpdate d l = d := by
  induction l with
  | nil => rfl
  | cons p rest ih =>
    have h1 : dictSet d p.1 p.2 = d :=
      dictSet_mem_self hnd (hsub p (List.mem_cons_self p rest))
    simp only [dictUpdate, List.foldl_cons, h1]
    exact ih (fun q hq => hsub q (List.mem_cons_of_mem p hq))

theorem dictUpdate_fresh [BEq κ] [LawfulBEq κ] (d l : List (κ × α))
    (hfresh : ∀ p ∈ l, dictMem d p.1 = false)
    (hnd : (l.map Prod.fst).Nodup) : dictUpdate d l = d ++ l := by
  induction l generalizing d with
  | nil => simp [dictUpdate]
  | cons p rest ih =>
    simp only [List.map_cons, List.nodup_cons] at hnd
    have h1 : dictSet d p.1 p.2 = d ++ [p] :=
      dictSet_not_mem p.2 (hfresh p (List.mem_cons_self p rest))
    simp only [dictUpdate, List.foldl_cons, h1]
    have h2 : ∀ q ∈ rest, dictMem (d ++ [p]) q.1 = false := by
      intro q hq
      have hqd : dictMem d q.1 = false := hfresh q (List.mem_cons_of_mem p hq)
      have hqp : (p.1 == q.1) = false := by
        apply beq_eq_false_iff_ne.mpr
        intro hEq
        exact hnd.1 (hEq ▸ List.mem_map.mpr ⟨q, hq, rfl⟩)
      simp [dictMem, List.any_append] at hqd ⊢
      exact ⟨hqd, by simpa using hqp⟩
    have := ih (d ++ [p]) h2 hnd.2
    simp only [dictUpdate] at this
    rw [this, List.append_assoc]
    rfl

theorem dictUpdate_append [BEq κ] (d l1 l2 : List (κ × α)) :
    dictUpdate d (l1 ++ l2) = dictUpdate (dictUpdate d l1) l2 :=
  List.foldl_append _ _ l1 l2

theorem dictGet_of_mem [BEq κ] [LawfulBEq κ] {d : List (κ × α)} {k : κ} {v : α}
    (hnd : (d.map Prod.fst).Nodup) (hm : (k, v) ∈ d) (dflt : α) :
    dictGet d k dflt = v := by
  induction d with
  | nil => cases hm
  | cons q rest ih =>
    simp only [List.map_cons, List.nodup_cons] at hnd
    rcases List.mem_cons.mp hm with hm1 | hm1
    · simp [dictGet, List.find?, ← hm1]
    · have hq : (q.1 == k) = false := by
        apply beq_eq_false_iff_ne.mpr
        intro hEq
        exact hnd.1 (hEq ▸ List.mem_map.mpr ⟨(k, v), hm1, rfl⟩)
      have := ih hnd.2 hm1
      simpa [dictGet, List.find?, hq] using this

theorem dictGet_not_mem [BEq κ] [LawfulBEq κ] {d : List (κ × α)} {k : κ}
    (h : dictMem d k = false) (dflt : α) : dictGet d k dflt = dflt := by
  have : d.find? (fun p => p.1 == k) = none := by
    apply List.find?_eq_none.mpr
    intro p hp
    simpa using (dictMem_eq_false_iff d k).mp h p hp
  simp [dictGet, this]

theorem dictGet_congr_perm [BEq κ] [LawfulBEq κ] {d1 d2 : List (κ × α)}
    (h : d1.Perm d2) (hnd : (d1.map Prod.fst).Nodup) (k : κ) (dflt : α) :
    dictGet d1 k dflt = dictGet d2 k dflt := by
  have hnd2 : (d2.map Prod.fst).Nodup := ((h.map Prod.fst).nodup_iff).mp hnd
  by_cases hk : ∃ v, (k, v) ∈ d1
  · obtain ⟨v, hv⟩ := hk
    rw [dictGet_of_mem hnd hv dflt, dictGet_of_mem hnd2 (h.mem_iff.mp hv) dflt]
  · have h1 : dictMem d1 k = false := by
      apply (dictMem_eq_false_iff d1 k).mpr
      intro p hp hEq
      exact hk ⟨p.2, by rwa [← hEq]⟩
    have h2 : dictMem d2 k = false := by
      apply (dictMem_eq_false_iff d2 k).mpr
      intro p hp hEq
      exact hk ⟨p.2, by rw [← hEq]; exact h.mem_iff.mpr hp⟩
    rw [dictGet_not_mem h1 dflt, dictGet_not_mem h2 dflt]

/-! Helper lemmas about positional enumeration. -/

theorem enumKeyedFrom_append (i : Nat) (l1 l2 : List α) :
    enumKeyedFrom i (l1 ++ l2) =
      enumKeyedFrom i l1 ++ enumKeyedFrom (i + l1.length) l2 := by
  induction l1 generalizing i with
  | nil => simp [enumKeyedFrom]
  | cons x rest ih =>
    simp only [List.cons_append, enumKeyedFrom, List.length_cons, List.append_eq,
      ih (i + 1)]
    have harith : i + 1 + rest.length = i + (rest.length + 1) := by omega
    rw [harith]

theorem enumKeyedFrom_keys (i : Nat) (l : List α) :
    (enumKeyedFrom i l).map Prod.fst = (List.range' i l.length).map Label.num := by
  induction l generalizing i with
  | nil => simp [enumKeyedFrom]
  | cons x rest ih =>
    simp [enumKeyedFrom, List.range'_succ, ih (i + 1)]

theorem enumKeyedFrom_values (i : Nat) (l : List α) :
    (enumKeyedFrom i l).map Prod.snd = l := by
  induction l generalizing i with
  | nil => rfl
  | cons x rest ih => simp [enumKeyedFrom, ih (i + 1)]

theorem labelNum_injective : Function.Injective Label.num := by
  intro a b h
  cases h
  rfl

theorem enumKeyedFrom_keys_nodup (i : Nat) (l : List α) :
    ((enumKeyedFrom i l).map Prod.fst).Nodup := by
  rw [enumKeyedFrom_keys]
  exact (List.nodup_range' i l.length).map labelNum_injective

theorem unlabeled_not_mem_enumKeyedFrom (i : Nat) (l : List α) :
    Label.unlabeled ∉ (enumKeyedFrom i l).map Prod.fst := by
  rw [enumKeyedFrom_keys]
  intro h
  obtain ⟨j, _, hj⟩ := List.mem_map.mp h
  cases hj

/-! Helper lemmas about escaping. -/

theorem escapeList_ne_nil {cs : List Char} (c : Char) (l : List Char) :
    escapeList cs (c :: l) ≠ [] := by
  by_cases hc : c ∈ cs <;> simp [escapeList, hc]

theorem escapeList_injective {cs : List Char} (hbs : '\\' ∈ cs) :
    ∀ a b : List Char, escapeList cs a = escapeList cs b → a = b := by
  intro a
  induction a with
  | nil =>
    intro b h
    cases b with
    | nil => rfl
    | cons d bs => exact absurd h.symm (escapeList_ne_nil d bs)
  | cons c as ih =>
    intro b h
    cases b with
    | nil => exact absurd h (escapeList_ne_nil c as)
    | cons d bs =>
      by_cases hc : c ∈ cs <;> by_cases hd : d ∈ cs <;>
        simp only [escapeList, hc, hd, if_true, if_false, ite_true, ite_false,
          List.cons.injEq] at h
      · rw [h.2.1, ih bs h.2.2]
      · exact absurd (h.1 ▸ hbs) hd
      · exact absurd (h.1.symm ▸ hbs) hc
      · rw [h.1, ih bs h.2]

theorem escape_chars_cs1_injective :
    Function.Injective (fun s => escape_chars s cs1) := by
  intro a b h
  apply String.ext
  exact escapeList_injective (by decide) a.data b.data (String.ext_iff.mp h)

theorem outKwargsOf_eq_update (n : Node) :
    outKwargsOf n = dictUpdate []
      (n.kwargs.map (fun p => (escape_chars p.1 cs1, escape_chars p.2 cs1))) := by
  simp [outKwargsOf, dictUpdate, List.foldl_map]

theorem outKwargsOf_eq_map (n : Node) (hnd : (n.kwargs.map Prod.fst).Nodup) :
    outKwargsOf n =
      n.kwargs.map (fun p => (escape_chars p.1 cs1, escape_chars p.2 cs1)) := by
  rw [outKwargsOf_eq_update]
  have hnd2 : ((n.kwargs.map
      (fun p => (escape_chars p.1 cs1, escape_chars p.2 cs1))).map Prod.fst).Nodup := by
    rw [List.map_map]
    have : (Prod.fst ∘ fun p : String × String =>
        (escape_chars p.1 cs1, escape_chars p.2 cs1)) =
        (fun s => escape_chars s cs1) ∘ Prod.fst := rfl
    rw [this, ← List.map_map]
    exact hnd.map escape_chars_cs1_injective
  have := dictUpdate_fresh []
    (n.kwargs.map (fun p => (escape_chars p.1 cs1, escape_chars p.2 cs1)))
    (fun _ _ => rfl) hnd2
  simpa using this

theorem getFilter_eq_render (n : Node) (fo : Nat) :
    n.getFilter fo = renderDescriptor n fo := by
  simp only [Node.getFilter, renderDescriptor, argParamsOf, kwargParamsOf,
    sortedKeysOf, outKwargsOf, List.map_map]
  rfl

theorem getFilter_congr_perm (n₁ n₂ : Node) (fo : Nat)
    (hname : n₁.name = n₂.name) (hargs : n₁.args = n₂.args)
    (hperm : n₁.kwargs.Perm n₂.kwargs)
    (hnd : (n₁.kwargs.map Prod.fst).Nodup) :
    n₁.getFilter fo = n₂.getFilter fo := by
  have hout1 := outKwargsOf_eq_map n₁ hnd
  have hnd2 : (n₂.kwargs.map Prod.fst).Nodup :=
    ((hperm.map Prod.fst).nodup_iff).mp hnd
  have hout2 := outKwargsOf_eq_map n₂ hnd2
  have houtperm : (outKwargsOf n₁).Perm (outKwargsOf n₂) := by
    rw [hout1, hout2]
    exact hperm.map _
  have houtnd : ((outKwargsOf n₁).map Prod.fst).Nodup := by
    rw [hout1, List.map_map]
    have : (Prod.fst ∘ fun p : String × String =>
        (escape_chars p.1 cs1, escape_chars p.2 cs1)) =
        (fun s => escape_chars s cs1) ∘ Prod.fst := rfl
    rw [this, ← List.map_map]
    exact hnd.map escape_chars_cs1_injective
  have hsortedEq : sortedKeysOf n₁ = sortedKeysOf n₂ := by
    unfold sortedKeysOf
    exact sortStrings_congr (houtperm.map Prod.fst)
  have hkw : kwargParamsOf n₁ = kwargParamsOf n₂ := by
    unfold kwargParamsOf
    rw [hsortedEq]
    apply List.map_congr_left
    intro k _
    rw [dictGet_congr_perm houtperm houtnd k ""]
  have hap : argParamsOf n₁ fo = argParamsOf n₂ fo := by
    unfold argParamsOf
    rw [hname, hargs]
  rw [getFilter_eq_render, getFilter_eq_render]
  unfold renderDescriptor
  rw [hkw, hap, hname]

/-! Helper lemmas tying positional enumeration to dict update. -/

theorem enumKeyed_keys (l : List α) :
    (enumKeyed l).map Prod.fst = (List.range' 0 l.length).map Label.num :=
  enumKeyedFrom_keys 0 l

theorem enumKeyed_append (l1 l2 : List α) :
    enumKeyed (l1 ++ l2) = enumKeyed l1 ++ enumKeyedFrom l1.length l2 := by
  rw [enumKeyed, enumKeyedFrom_append]
  simp [enumKeyed]

theorem enumKeyed_keys_nodup (l : List α) :
    ((enumKeyed l).map Prod.fst).Nodup :=
  enumKeyedFrom_keys_nodup 0 l

theorem unlabeled_not_mem_enumKeyed (l : List α) :
    Label.unlabeled ∉ (enumKeyed l).map Prod.fst :=
  unlabeled_not_mem_enumKeyedFrom 0 l

theorem key_of_mem_enumKeyedFrom {i : Nat} {l : List α} {p : Label × α}
    (hp : p ∈ enumKeyedFrom i l) :
    ∃ j, i ≤ j ∧ j < i + l.length ∧ p.1 = Label.num j := by
  have hkey : p.1 ∈ (enumKeyedFrom i l).map Prod.fst :=
    List.mem_map.mpr ⟨p, hp, rfl⟩
  rw [enumKeyedFrom_keys] at hkey
  obtain ⟨j, hj, hjp⟩ := List.mem_map.mp hkey
  obtain ⟨t, ht, hjt⟩ := List.mem_range'.mp hj
  exact ⟨j, by omega, by omega, hjp.symm⟩

theorem pop_unlabeled_positional (d : List (Label × α))
    (hk : d = enumKeyed (d.map Prod.snd)) :
    dictPop d Label.unlabeled = d := by
  apply List.filter_eq_self.mpr
  intro p hp
  have hp' : p ∈ enumKeyed (d.map Prod.snd) := hk ▸ hp
  obtain ⟨j, _, _, hj⟩ := key_of_mem_enumKeyedFrom hp'
  rw [hj]
  rfl

theorem dictUpdate_enumKeyed_merge (d : List (Label × α)) (xs : List α)
    (hk : d = enumKeyed (d.map Prod.snd)) :
    dictUpdate d (enumKeyed (d.map Prod.snd ++ xs)) =
      enumKeyed (d.map Prod.snd ++ xs) := by
  have hnd : (d.map Prod.fst).Nodup := by
    rw [hk]
    exact enumKeyed_keys_nodup _
  rw [enumKeyed_append, ← hk, dictUpdate_append,
    dictUpdate_self hnd d (fun p hp => hp)]
  apply dictUpdate_fresh
  · intro q hq
    obtain ⟨j, hj1, _, hj3⟩ := key_of_mem_enumKeyedFrom hq
    apply (dictMem_eq_false_iff d q.1).mpr
    intro p hp
    have hp' : p ∈ enumKeyed (d.map Prod.snd) := hk ▸ hp
    obtain ⟨j2, _, hj2b, hj2c⟩ := key_of_mem_enumKeyedFrom hp'
    rw [hj2c, hj3]
    intro hEq
    have : j2 = j := by
      have := labelNum_injective hEq
      exact this
    simp only [Nat.zero_add, List.length_map] at hj2b hj1
    omega
  · exact enumKeyedFrom_keys_nodup _ _

theorem addStreams_cases (self : Node) (spec : SpecArg) :
    (self.addStreams spec).2 = none ∨ (self.addStreams spec).1 = self := by
  simp only [Node.addStreams]
  split
  · right; rfl
  · split
    · right; rfl
    · split
      · right; rfl
      · left; rfl

theorem checkInputLen_arity_error (n : Nat) (mn mx : Option Nat)
    (hbad : (∃ a, mn = some a ∧ n < a) ∨ (∃ b, mx = some b ∧ b < n)) :
    checkInputLen n mn mx = .error .arityError := by
  rcases hbad with ⟨a, hmn, hlt⟩ | ⟨b, hmx, hgt⟩
  · subst hmn
    simp [checkInputLen, hlt]
  · subst hmx
    cases mn with
    | none => simp [checkInputLen, hgt]
    | some a =>
      by_cases hna : n < a
      · simp [checkInputLen, hna]
      · simp [checkInputLen, hna, hgt]

theorem checkInputTypes_error (sm : List (Label × Stream)) (allowed : List SKind)
    (hbad : ∃ p ∈ sm, p.2.skind ∉ allowed) :
    checkInputTypes sm allowed = .error .typeMismatch := by
  induction sm with
  | nil =>
    obtain ⟨p, hp, _⟩ := hbad
    cases hp
  | cons q rest ih =>
    obtain ⟨p, hp, hbadp⟩ := hbad
    rcases List.mem_cons.mp hp with h1 | h1
    · subst h1
      simp [checkInputTypes, hbadp]
    · by_cases hq : q.2.skind ∈ allowed
      · simpa [checkInputTypes, hq] using ih ⟨p, h1, hbadp⟩
      · simp [checkInputTypes, hq]

/-! The claim theorems. -/

/-- C1, counterexample: attaching a stream to a node whose only existing edge
sits under a caller-chosen name keeps the named entry and also inserts a
renumbered copy of it, so the merged map stores the same edge under two keys
and the claim that the merged map never contains a duplicated edge fails. -/
theorem addStreams_duplicates_named_edge :
    OutputNode.init (.known (.dictSpec [(.str "a", sIn1)])) "out" [] [] =
      .ok c1Node ∧
    c1Node.addStreams (.known (.single sIn2)) =
      ({ c1Node with incomingEdgeMap :=
        [(.str "a", edgeIn1), (.num 0, edgeIn1), (.num 1, edgeIn2)] }, none) ∧
    (c1Node.addStreams (.known (.single sIn2))).1.incomingEdgeMap.map Prod.snd =
      [edgeIn1, edgeIn1, edgeIn2] := by
  decide

/-- C1, amended: when the keys of the existing edge map are exactly the
contiguous positional sequence, or the map is a single unlabeled entry, a
successful attach stores exactly the positional renumbering of the
concatenation of the previous edges and the new edges, with pairwise distinct
keys and no unlabeled key; with caller-chosen named keys the source instead
leaves the named entries in place next to their renumbered copies. -/
theorem addStreams_merge_positional (self : Node) (spec : SpecArg) (n' : Node)
    (hkeys : self.incomingEdgeMap = enumKeyed (self.incomingEdgeMap.map Prod.snd)
      ∨ ∃ e, self.incomingEdgeMap = [(Label.unlabeled, e)])
    (h : self.addStreams spec = (n', none)) :
    ∃ sm, get_stream_map spec = .ok sm ∧
      n'.incomingEdgeMap = enumKeyed (self.incomingEdgeMap.map Prod.snd ++
        (getIncomingEdgeMap sm).map Prod.snd) ∧
      (n'.incomingEdgeMap.map Prod.fst).Nodup ∧
      Label.unlabeled ∉ n'.incomingEdgeMap.map Prod.fst := by
  simp only [Node.addStreams] at h
  split at h
  next e hg => simp at h
  next sm hg =>
    split at h
    next e ht => simp at h
    next u ht =>
      split at h
      next e hl => simp at h
      next u2 hl =>
        have hmap : n'.incomingEdgeMap =
            dictUpdate (dictPop self.incomingEdgeMap Label.unlabeled)
              (enumKeyed (self.incomingEdgeMap.map Prod.snd ++
                (getIncomingEdgeMap sm).map Prod.snd)) := by
          have := congrArg (fun q : Node × Option Err => q.1.incomingEdgeMap) h
          simpa using this.symm
        refine ⟨sm, hg, ?_, ?_, ?_⟩
        · rw [hmap]
          rcases hkeys with hk | ⟨e0, he⟩
          · rw [pop_unlabeled_positional _ hk,
              dictUpdate_enumKeyed_merge _ _ hk]
          · rw [he]
            have hpop : dictPop [(Label.unlabeled, e0)] Label.unlabeled =
                ([] : List (Label × Edge)) := rfl
            rw [hpop]
            have hfr := dictUpdate_fresh ([] : List (Label × Edge))
              (enumKeyed ((([(Label.unlabeled, e0)] : List (Label × Edge))).map
                  Prod.snd ++ (getIncomingEdgeMap sm).map Prod.snd))
              (fun _ _ => rfl) (enumKeyed_keys_nodup _)
            simpa using hfr
        · rw [hmap]
          rcases hkeys with hk | ⟨e0, he⟩
          · rw [pop_unlabeled_positional _ hk,
              dictUpdate_enumKeyed_merge _ _ hk]
            exact enumKeyed_keys_nodup _
          · rw [he]
            have hpop : dictPop [(Label.unlabeled, e0)] Label.unlabeled =
                ([] : List (Label × Edge)) := rfl
            rw [hpop]
            have hfr := dictUpdate_fresh ([] : List (Label × Edge))
              (enumKeyed ((([(Label.unlabeled, e0)] : List (Label × Edge))).map
                  Prod.snd ++ (getIncomingEdgeMap sm).map Prod.snd))
              (fun _ _ => rfl) (enumKeyed_keys_nodup _)
            rw [List.nil_append] at hfr
            rw [hfr]
            exact enumKeyed_keys_nodup _
        · rw [hmap]
          rcases hkeys with hk | ⟨e0, he⟩
          · rw [pop_unlabeled_positional _ hk,
              dictUpdate_enumKeyed_merge _ _ hk]
            exact unlabeled_not_mem_enumKeyed _
          · rw [he]
            have hpop : dictPop [(Label.unlabeled, e0)] Label.unlabeled =
                ([] : List (Label × Edge)) := rfl
            rw [hpop]
            have hfr := dictUpdate_fresh ([] : List (Label × Edge))
              (enumKeyed ((([(Label.unlabeled, e0)] : List (Label × Edge))).map
                  Prod.snd ++ (getIncomingEdgeMap sm).map Prod.snd))
              (fun _ _ => rfl) (enumKeyed_keys_nodup _)
            rw [List.nil_append] at hfr
            rw [hfr]
            exact unlabeled_not_mem_enumKeyed _

/-- C1, witness: a filter node with one unlabeled edge and room for two takes
a second stream; the merged map is the contiguous renumbering of both edges,
with distinct keys and no unlabeled key. -/
theorem addStreams_merge_positional_witness :
    ∃ sm, get_stream_map (.known (.single sIn2)) = .ok sm ∧
      (w1Node.addStreams (.known (.single sIn2))).1.incomingEdgeMap =
        enumKeyed (w1Node.incomingEdgeMap.map Prod.snd ++
          (getIncomingEdgeMap sm).map Prod.snd) ∧
      ((w1Node.addStreams
        (.known (.single sIn2))).1.incomingEdgeMap.map Prod.fst).Nodup ∧
      Label.unlabeled ∉
        (w1Node.addStreams (.known (.single sIn2))).1.incomingEdgeMap.map
          Prod.fst :=
  addStreams_merge_positional w1Node (.known (.single sIn2))
    (w1Node.addStreams (.known (.single sIn2))).1
    (Or.inr ⟨edgeIn1, rfl⟩) (by decide)

/-- C2: a failed attach is atomic; whenever `_add_streams` raises, the node
state after the call is the receiver unchanged, so the stored incoming edge
map keeps both its contents and its length. -/
theorem addStreams_atomic (self : Node) (spec : SpecArg) (e : Err)
    (h : (self.addStreams spec).2 = some e) :
    (self.addStreams spec).1 = self ∧
    (self.addStreams spec).1.incomingEdgeMap = self.incomingEdgeMap ∧
    (self.addStreams spec).1.incomingEdgeMap.length =
      self.incomingEdgeMap.length := by
  rcases addStreams_cases self spec with h2 | h1
  · rw [h2] at h
    cases h
  · exact ⟨h1, by rw [h1], by rw [h1]⟩

/-- C2, witness: attaching an output-kind stream to a filter node raises
TypeMismatch and leaves the node exactly as it was. -/
theorem addStreams_atomic_witness :
    (c2Node.addStreams (.known (.single sOut1))).2 = some .typeMismatch ∧
    (c2Node.addStreams (.known (.single sOut1))).1 = c2Node :=
  ⟨by decide,
    (addStreams_atomic c2Node (.known (.single sOut1)) .typeMismatch
      (by decide)).1⟩

/-- C3, counterexample: a positional parameter holding a colon is escaped
with the first charset at line 200 and again at line 207, so the rendered
descriptor differs from the one-round rendering the claim describes. -/
theorem args_escaped_twice_cex :
    c3Node.getFilter 1 ≠ renderOnceEscaped c3Node 1 ∧
    c3Node.getFilter 1 =
      escape_chars ("f=" ++ escape_chars (escape_chars "a:b" cs1) cs1) cs2 ∧
    renderOnceEscaped c3Node 1 =
      escape_chars ("f=" ++ escape_chars "a:b" cs1) cs2 := by
  decide

/-- C3, amended: the rendered descriptor escapes every positional parameter
twice with the backslash, quote, equals, colon charset, keyword keys and
values once, the operation name once, and the assembled descriptor once with
the backslash, quote, brackets, comma, semicolon charset. -/
theorem getFilter_escape_structure (n : Node) (fo : Nat) :
    n.getFilter fo = renderDescriptor n fo :=
  getFilter_eq_render n fo

/-- C4, counterexample: the bare selector form succeeds but rebuilds the
stream through `self.node.stream(select=...)`, whose label argument defaults
to `None`; on a stream labeled 5 the result is unlabeled, so the claim that
the result keeps the upstream label of the original stream fails. -/
theorem getItem_drops_label_cex :
    sFlt5.getItem (.sliceArg none (some "audio")) =
      .ok ⟨.filterable, filtRef, .unlabeled, some "audio"⟩ ∧
    (⟨.filterable, filtRef, .unlabeled, some "audio"⟩ : Stream).label ≠
      sFlt5.label := by
  decide

/-- C4, amended: on a stream whose upstream node is valid for its own
outgoing stream class, the bare selector form returns a stream with the same
upstream node, the requested selector, and the default unlabeled label; a
direct index or a slice with a starting bound fails with InvalidUsage. -/
theorem getItem_selector (s : Stream) (sel : Option String)
    (hval : s.node.kind ∈ allowedNodeKinds s.node.outStreamType) :
    s.getItem (.sliceArg none sel) =
      .ok ⟨s.node.outStreamType, s.node, .unlabeled, sel⟩ ∧
    (∀ x, s.getItem (.plainArg x) = .error .invalidUsage) ∧
    (∀ a b, s.getItem (.sliceArg (some a) b) = .error .invalidUsage) := by
  refine ⟨?_, fun x => rfl, fun a b => rfl⟩
  simp [Stream.getItem, NodeRef.stream, mkStream, hval]

/-- C4, witness: selecting the audio component of a labeled filter stream
yields the unlabeled stream with selector audio over the same node. -/
theorem getItem_selector_witness :
    sFlt5.getItem (.sliceArg none (some "audio")) =
      .ok ⟨sFlt5.node.outStreamType, sFlt5.node, .unlabeled, some "audio"⟩ :=
  (getItem_selector sFlt5 (some "audio") (by decide)).1

/-- C5: construction fails with ArityError whenever the normalised map is
shorter than the declared minimum or, when a maximum is set, longer than it;
a filter node with minimum one and maximum one rejects zero and two incoming
streams and accepts exactly one processable stream. -/
theorem node_arity_validation :
    (∀ (kind : NKind) (spec : SpecArg) (nm : String) (inc : List SKind)
        (outT : SKind) (mn mx : Option Nat) (args : List String)
        (kwargs : List (String × String)) (sm : List (Label × Stream)),
      get_stream_map spec = .ok sm →
      ((∃ a, mn = some a ∧ sm.length < a) ∨
        (∃ b, mx = some b ∧ b < sm.length)) →
      Node.init kind spec nm inc outT mn mx args kwargs =
        .error .arityError) ∧
    FilterNode.init (.known .noSpec) "vflip" (some 1) [] [] =
      .error .arityError ∧
    FilterNode.init (.known (.listSpec [sIn1, sIn2])) "overlay" (some 1) [] [] =
      .error .arityError ∧
    FilterNode.init (.known (.single sIn1)) "vflip" (some 1) [] [] =
      .ok c5Node := by
  refine ⟨?_, by decide, by decide, by decide⟩
  intro kind spec nm inc outT mn mx args kwargs sm hg hbad
  unfold Node.init
  simp only [hg, checkInputLen_arity_error sm.length mn mx hbad]

/-- C5, witness: a two-stream specification against minimum one and maximum
one fails with ArityError. -/
theorem node_arity_validation_witness :
    Node.init .filter (.known (.listSpec [sIn1, sIn2])) "overlay" [.filterable]
      .filterable (some 1) (some 1) [] [] = .error .arityError :=
  node_arity_validation.1 .filter (.known (.listSpec [sIn1, sIn2])) "overlay"
    [.filterable] .filterable (some 1) (some 1) [] []
    (enumKeyed [sIn1, sIn2]) rfl (Or.inr ⟨1, rfl, by decide⟩)

/-- C6, counterexample: cardinality is validated before kinds, so a two
stream specification holding a wrong-kind value against maximum one fails
with ArityError rather than the TypeMismatch the claim predicts. -/
theorem kind_error_masked_by_arity :
    Stream.skind sOut1 ∉ [SKind.filterable] ∧
    FilterNode.init (.known (.listSpec [sIn1, sOut1])) "overlay" (some 1) [] [] =
      .error .arityError ∧
    Err.arityError ≠ Err.typeMismatch := by
  decide

/-- C6, amended: once the cardinality check passes, any value of the
normalised map whose kind is outside the allowed incoming set makes
construction fail with TypeMismatch; in particular an output node, whose
bounds never fail, rejects a non-processable stream with TypeMismatch. -/
theorem node_kind_validation :
    (∀ (kind : NKind) (spec : SpecArg) (nm : String) (inc : List SKind)
        (outT : SKind) (mn mx : Option Nat) (args : List String)
        (kwargs : List (String × String)) (sm : List (Label × Stream)),
      get_stream_map spec = .ok sm →
      checkInputLen sm.length mn mx = .ok () →
      (∃ p ∈ sm, p.2.skind ∉ inc) →
      Node.init kind spec nm inc outT mn mx args kwargs =
        .error .typeMismatch) ∧
    OutputNode.init (.known (.single sOut1)) "out" [] [] =
      .error .typeMismatch := by
  refine ⟨?_, by decide⟩
  intro kind spec nm inc outT mn mx args kwargs sm hg hlen hbad
  unfold Node.init
  simp only [hg, hlen, checkInputTypes_error sm inc hbad]

/-- C6, witness: constructing an output node from a single output-kind
stream passes the cardinality check and fails with TypeMismatch. -/
theorem node_kind_validation_witness :
    Node.init .output (.known (.single sOut1)) "out" [.filterable] .output
      (some 0) none [] [] = .error .typeMismatch :=
  node_kind_validation.1 .output (.known (.single sOut1)) "out" [.filterable]
    .output (some 0) none [] [] [(Label.unlabeled, sOut1)] rfl rfl
    ⟨(Label.unlabeled, sOut1), by decide, by decide⟩

/-- C7: for the recognised fan-out names the positional parameter list is
replaced by the single count of outgoing edges in use, overriding any
explicitly supplied count; a split node built with explicit count 3 but two
outgoing edges renders with count 2. -/
theorem split_fanout_override :
    (∀ (n : Node) (fo : Nat), n.name = "split" ∨ n.name = "asplit" →
      n.getFilter fo = Node.getFilter
        ⟨n.kind, n.name, [toString fo], n.kwargs, n.incomingEdgeMap,
          n.incomingStreamTypes, n.minInputs, n.maxInputs, n.outStreamType⟩
        fo) ∧
    splitNode3.getFilter 2 = "split=2" := by
  refine ⟨?_, by decide⟩
  intro n fo h
  simp [Node.getFilter, h]

/-- C7, witness: the explicit count 3 on the split fixture is overridden by
the fan-out argument. -/
theorem split_fanout_override_witness :
    splitNode3.getFilter 2 = Node.getFilter
      ⟨splitNode3.kind, splitNode3.name, [toString 2], splitNode3.kwargs,
        splitNode3.incomingEdgeMap, splitNode3.incomingStreamTypes,
        splitNode3.minInputs, splitNode3.maxInputs, splitNode3.outStreamType⟩
      2 :=
  split_fanout_override.1 splitNode3 2 (Or.inl rfl)

/-- C8: rendering is deterministic (it is a pure function of the node and
the fan-out), keyword parameters are emitted in ascending lexicographic key
order independent of insertion order (given the dict invariant of pairwise
distinct keys), positional parameters appear in declaration order before all
keyword parameters, and the descriptor is the escaped name alone when there
are no parameters and `name=p1:p2:...:k=v` otherwise. -/
theorem getFilter_deterministic :
    (∀ (n : Node) (fo : Nat), n.getFilter fo = n.getFilter fo) ∧
    (∀ (n₁ n₂ : Node) (fo : Nat), n₁.name = n₂.name → n₁.args = n₂.args →
      n₁.kwargs.Perm n₂.kwargs → (n₁.kwargs.map Prod.fst).Nodup →
      n₁.getFilter fo = n₂.getFilter fo) ∧
    (∀ (n : Node) (fo : Nat), n.getFilter fo =
      escape_chars
        (if (argParamsOf n fo ++ kwargParamsOf n).isEmpty then
          escape_chars n.name cs1
        else
          escape_chars n.name cs1 ++ "=" ++
            joinColon (argParamsOf n fo ++ kwargParamsOf n)) cs2) ∧
    (∀ n : Node, List.Sorted strLe (sortedKeysOf n)) :=
  ⟨fun _ _ => rfl,
    fun n₁ n₂ fo h1 h2 h3 h4 => getFilter_congr_perm n₁ n₂ fo h1 h2 h3 h4,
    fun n fo => getFilter_eq_render n fo,
    fun _ => sortStrings_sorted _⟩

/-- C8, witness: the two scale fixtures differ only in keyword insertion
order and render to the same descriptor. -/
theorem getFilter_deterministic_witness :
    kwNodeWH.getFilter 1 = kwNodeHW.getFilter 1 :=
  getFilter_deterministic.2.1 kwNodeWH kwNodeHW 1 rfl rfl (by decide)
    (by decide)

/-- C9: stream equality is defined as equality of hashes, the hash combines
the upstream node hash with the label hash and ignores the selector, so two
streams over the same node and label that differ only in selector are
equal. -/
theorem stream_identity_hash (s t : Stream) :
    (s.eqPy t = true ↔ s.hashS = t.hashS) ∧
    (s.node = t.node → s.label = t.label → s.eqPy t = true) := by
  constructor
  · simp [Stream.eqPy]
  · intro h1 h2
    simp [Stream.eqPy, Stream.hashS, h1, h2]

/-- C9, witness: two streams over the same node and label, one with a
selector and one without, compare equal. -/
theorem stream_identity_hash_witness :
    Stream.eqPy ⟨.filterable, filtRef, .num 0, none⟩
      ⟨.filterable, filtRef, .num 0, some "audio"⟩ = true :=
  (stream_identity_hash ⟨.filterable, filtRef, .num 0, none⟩
    ⟨.filterable, filtRef, .num 0, some "audio"⟩).2 rfl rfl

/-- C10: the normalisation accepts exactly the four stream specification
shapes, producing the empty map, the single unlabeled entry, the positional
enumeration, or the dict unchanged; every other value reaches the
unbound-local failure of the final return, which is neither a map nor one of
the validation errors. -/
theorem get_stream_map_shapes :
    get_stream_map (.known .noSpec) = .ok [] ∧
    (∀ s, get_stream_map (.known (.single s)) =
      .ok [(Label.unlabeled, s)]) ∧
    (∀ ss, get_stream_map (.known (.listSpec ss)) = .ok (enumKeyed ss)) ∧
    (∀ m, get_stream_map (.known (.dictSpec m)) = .ok m) ∧
    get_stream_map .other = .error .nameError ∧
    Err.nameError ≠ Err.typeMismatch ∧ Err.nameError ≠ Err.arityError :=
  ⟨rfl, fun _ => rfl, fun _ => rfl, fun _ => rfl, rfl, by decide, by decide⟩

end FfmpegNodes
